import Mathlib

/-!
Verification development for the node-lifecycle orchestrator
(karpenter-provider-aws).  The repository checkout contains the process
bootstrap (`cmd/controller/main.go`) and an integration test; the core
Scheduling & Fleet-State Engine (Fleet State Tracker, Scheduling Simulator,
Consolidation Engine) is referenced from `main.go` (the `state`,
`provisioning` and `termination` controllers) but its sources are not part
of the checkout.  Those components are therefore modelled from the design
specification; definitions taken directly from `main.go` say so in their
doc comments.
-/

namespace Karpenter

/-- Modelled from the spec: a resource vector over the two quantitative
dimensions the claims exercise (CPU in millicores, memory in MiB); the
spec's further dimensions (GPU, ephemeral storage, pod count) are elided
because no claim distinguishes them from these two. -/
structure Resources where
  cpu : Nat
  memory : Nat
  deriving DecidableEq, Repr

namespace Resources

/-- Componentwise sum of two resource vectors. -/
def add (a b : Resources) : Resources := ⟨a.cpu + b.cpu, a.memory + b.memory⟩

/-- The zero resource vector. -/
def zero : Resources := ⟨0, 0⟩

/-- `fits req cap` holds when a request fits inside a capacity on every
dimension. -/
def fits (req cap : Resources) : Bool := req.cpu ≤ cap.cpu && req.memory ≤ cap.memory

/-- Scalar footprint (spec 4.2 step 3: pods are ordered by resource
footprint, largest first). -/
def footprint (a : Resources) : Nat := a.cpu + a.memory

/-- Truncated componentwise difference, used for remaining capacity. -/
def sub (a b : Resources) : Resources := ⟨a.cpu - b.cpu, a.memory - b.memory⟩

end Resources

/-- Modelled from the spec: node lifecycle phase (spec section 3). -/
inductive NodePhase
  | Pending
  | Ready
  | Deleting
  deriving DecidableEq, Repr

/-- Modelled from the spec: pod lifecycle phase (spec section 3). -/
inductive PodPhase
  | Pending
  | Bound
  | Terminating
  deriving DecidableEq, Repr

/-- Modelled from the spec: a Node Record of the Fleet State Tracker
(identity, zone, allocatable resources, lifecycle phase; labels/taints and
pool reference elided because no claim exercises them). -/
structure NodeRecord where
  id : String
  zone : String
  allocatable : Resources
  phase : NodePhase
  deriving DecidableEq, Repr

/-- Modelled from the spec: a Pod Record of the Fleet State Tracker
(identity, resource requests, assigned node when any, phase; the
constraint fields elided because no claim exercises them). -/
structure PodRecord where
  id : String
  requests : Resources
  nodeId : Option String
  phase : PodPhase
  deriving DecidableEq, Repr

/-- Modelled from the spec: the change kinds delivered by the change-event
collaborator (spec section 6). -/
inductive ChangeKind
  | Added
  | Updated
  | Deleted
  deriving DecidableEq, Repr

/-- Modelled from the spec: the Fleet State Tracker's state, the live
mapping of nodes and pods keyed by identity (spec 4.1). -/
structure Tracker where
  nodes : List NodeRecord
  pods : List PodRecord
  deriving DecidableEq, Repr

/-- The empty Tracker (cold start, spec section 6). -/
def Tracker.empty : Tracker := ⟨[], []⟩

/-- Whether a node with the given identity exists in the Tracker. -/
def nodeExists (t : Tracker) (nid : String) : Bool :=
  t.nodes.any (fun n => n.id = nid)

/-- Modelled from the spec: `ApplyNodeEvent(node, changeKind)` upserts or
removes a Node Record (spec 4.1); allocatable usage is recomputed from the
node's pods, never accumulated as deltas. -/
def applyNodeEvent (t : Tracker) (n : NodeRecord) (k : ChangeKind) : Tracker :=
  match k with
  | .Deleted => { t with nodes := t.nodes.filter (fun m => m.id ≠ n.id) }
  | _ => { t with nodes := t.nodes.filter (fun m => m.id ≠ n.id) ++ [n] }

/-- Modelled from the spec: `ApplyPodEvent(pod, changeKind)` upserts or
removes a Pod Record (spec 4.1).  An event referencing a pod bound to a
node absent from the Tracker is recorded as an inconsistency (the returned
flag) and is not fatal (spec 4.1 error conditions). -/
def applyPodEvent (t : Tracker) (p : PodRecord) (k : ChangeKind) : Tracker × Bool :=
  match k with
  | .Deleted => ({ t with pods := t.pods.filter (fun q => q.id ≠ p.id) }, false)
  | _ =>
    let inconsistent :=
      match p.nodeId with
      | some nid => !nodeExists t nid
      | none => false
    ({ t with pods := t.pods.filter (fun q => q.id ≠ p.id) ++ [p] }, inconsistent)

/-- Modelled from the spec: the node a pod is effectively bound to.  A pod
whose `nodeId` references a node absent from the Tracker is treated as
unbound until the owning node event arrives (spec 4.1). -/
def podBoundNode (t : Tracker) (p : PodRecord) : Option String :=
  match p.nodeId with
  | some nid => if nodeExists t nid then some nid else none
  | none => none

/-- The pods effectively bound to a given node. -/
def boundPods (t : Tracker) (nid : String) : List PodRecord :=
  if nodeExists t nid then t.pods.filter (fun p => p.nodeId = some nid) else []

/-- CPU usage of a node: sum of the CPU requests of its bound pods,
recomputed from the pods (spec 4.1). -/
def usedCpu (t : Tracker) (nid : String) : Nat :=
  ((boundPods t nid).map (fun p => p.requests.cpu)).sum

/-- Memory usage of a node: sum of the memory requests of its bound pods,
recomputed from the pods (spec 4.1). -/
def usedMem (t : Tracker) (nid : String) : Nat :=
  ((boundPods t nid).map (fun p => p.requests.memory)).sum

/-- The allocatable invariant (spec section 3): for every node, the sum of
bound pods' requests is at most the node's allocatable resources. -/
def allocOk (t : Tracker) : Bool :=
  t.nodes.all (fun n => usedCpu t n.id ≤ n.allocatable.cpu && usedMem t n.id ≤ n.allocatable.memory)

/-- Modelled from the spec: a Node Shape Offering of the Capacity Catalog
(shape name, resource vector, price in cents per hour; zone availability,
purchase option and freshness elided because no claim exercises them). -/
structure ShapeOffering where
  name : String
  resources : Resources
  price : Nat
  deriving DecidableEq, Repr

/-- Modelled from the spec: the Snapshot the Simulator reads — an immutable
point-in-time copy of node state, here the per-node remaining capacity
(spec 4.1 `Snapshot()`). -/
structure Snapshot where
  nodes : List (String × Resources)
  deriving DecidableEq, Repr

/-- The Snapshot of a Tracker state: each node with its remaining
allocatable capacity after subtracting the requests of its bound pods. -/
def snapshotOf (t : Tracker) : Snapshot :=
  ⟨t.nodes.map (fun n =>
    (n.id, ⟨n.allocatable.cpu - usedCpu t n.id, n.allocatable.memory - usedMem t n.id⟩))⟩

/-- Modelled from the spec: an existing-node assignment of the Placement
Plan (spec section 3). -/
structure Assignment where
  podId : String
  nodeId : String
  deriving DecidableEq, Repr

/-- Modelled from the spec: a new-node-shape proposal of the Placement
Plan, carrying the pods it would host (spec section 3). -/
structure NewNodeProposal where
  shape : ShapeOffering
  podIds : List String
  used : Resources
  deriving DecidableEq, Repr

/-- Modelled from the spec: the typed per-pod reasons for leaving a pod
unscheduled (spec 4.2 step 4). -/
inductive UnschedReason
  | NoMatchingOffering
  | CatalogEmpty
  deriving DecidableEq, Repr

/-- Modelled from the spec: the Placement Plan, the ephemeral output of the
Simulator (spec section 3). -/
structure PlacementPlan where
  assignments : List Assignment
  proposals : List NewNodeProposal
  unscheduled : List (String × UnschedReason)
  deriving DecidableEq, Repr

/-- Insert a pod into a list sorted by descending footprint (stable). -/
def insertDesc (p : PodRecord) : List PodRecord → List PodRecord
  | [] => [p]
  | q :: rest =>
    if q.requests.footprint < p.requests.footprint then p :: q :: rest
    else q :: insertDesc p rest

/-- Sort pods by descending resource footprint (spec 4.2 step 3:
first-fit-decreasing, largest pods first). -/
def sortPodsDesc : List PodRecord → List PodRecord
  | [] => []
  | p :: rest => insertDesc p (sortPodsDesc rest)

/-- `cheaperPerUnit a b`: shape `a` has strictly lower price per unit of
resource footprint than shape `b` (compared by cross-multiplication). -/
def cheaperPerUnit (a b : ShapeOffering) : Bool :=
  a.price * b.resources.footprint < b.price * a.resources.footprint

/-- Insert a shape into a list sorted by ascending price-per-unit (stable). -/
def insertShape (s : ShapeOffering) : List ShapeOffering → List ShapeOffering
  | [] => [s]
  | t :: rest => if cheaperPerUnit s t then s :: t :: rest else t :: insertShape s rest

/-- Sort shapes by ascending price per unit of requested resource
(spec 4.2 step 3). -/
def sortShapes : List ShapeOffering → List ShapeOffering
  | [] => []
  | s :: rest => insertShape s (sortShapes rest)

/-- Leftover footprint of a capacity after placing a request (spec 4.2
step 2: ties broken by least resource waste). -/
def leftoverAfter (req cap : Resources) : Nat := (cap.sub req).footprint

/-- The existing node with spare capacity that fits the request and leaves
the least resource waste (spec 4.2 step 2); `none` when no existing node
fits.  Earlier nodes win ties. -/
def bestExisting (req : Resources) (nodesRem : List (String × Resources)) :
    Option (String × Resources) :=
  nodesRem.foldl
    (fun best c =>
      if Resources.fits req c.2 then
        match best with
        | none => some c
        | some b => if leftoverAfter req c.2 < leftoverAfter req b.2 then some c else some b
      else best)
    none

/-- Subtract a placed request from the chosen node's remaining capacity. -/
def updateRem (nodesRem : List (String × Resources)) (nid : String) (req : Resources) :
    List (String × Resources) :=
  nodesRem.map (fun c => if c.1 = nid then (c.1, c.2.sub req) else c)

/-- Modelled from the spec: placement onto existing nodes with spare
capacity (spec 4.2 step 2), processing pods in order and accumulating
assignments and the pods left for new-node proposals. -/
def placeExisting (nodesRem : List (String × Resources)) (acc : List Assignment)
    (left : List PodRecord) :
    List PodRecord → List Assignment × List (String × Resources) × List PodRecord
  | [] => (acc, nodesRem, left)
  | p :: rest =>
    match bestExisting p.requests nodesRem with
    | some c => placeExisting (updateRem nodesRem c.1 p.requests) (acc ++ [⟨p.id, c.1⟩]) left rest
    | none => placeExisting nodesRem acc (left ++ [p]) rest

/-- Try to place a pod on the first open proposal with room (first fit). -/
def tryPlaceOpen (p : PodRecord) : List NewNodeProposal → Option (List NewNodeProposal)
  | [] => none
  | pr :: rest =>
    if Resources.fits (pr.used.add p.requests) pr.shape.resources then
      some ({ pr with podIds := pr.podIds ++ [p.id], used := pr.used.add p.requests } :: rest)
    else
      match tryPlaceOpen p rest with
      | some rest2 => some (pr :: rest2)
      | none => none

/-- The first shape (in ascending price-per-unit order) that fits the pod,
falling back to the next shape when the pod cannot fit one (spec 4.2
step 3). -/
def findFit (req : Resources) : List ShapeOffering → Option ShapeOffering
  | [] => none
  | s :: rest => if Resources.fits req s.resources then some s else findFit req rest

/-- The typed reason for an unplaceable pod (spec 4.2 step 4). -/
def reasonFor (shapes : List ShapeOffering) : UnschedReason :=
  if shapes.isEmpty then .CatalogEmpty else .NoMatchingOffering

/-- Modelled from the spec: the first-fit-decreasing packing of the pods
that did not fit existing nodes into new-node proposals (spec 4.2 step 3);
pods no offering can host are reported with a typed reason (step 4). -/
def packPods (shapes : List ShapeOffering) (opened : List NewNodeProposal)
    (uns : List (String × UnschedReason)) :
    List PodRecord → List NewNodeProposal × List (String × UnschedReason)
  | [] => (opened, uns)
  | p :: rest =>
    match tryPlaceOpen p opened with
    | some opened2 => packPods shapes opened2 uns rest
    | none =>
      match findFit p.requests shapes with
      | some s => packPods shapes (opened ++ [⟨s, [p.id], p.requests⟩]) uns rest
      | none => packPods shapes opened (uns ++ [(p.id, reasonFor shapes)]) rest

/-- Replace a proposal's shape by the cheapest catalog shape that still
holds its pods (spec 4.2 step 3: smallest set of shapes by count, then by
aggregate price).  The earliest cheapest shape wins ties. -/
def shrinkProposal (catalog : List ShapeOffering) (pr : NewNodeProposal) : NewNodeProposal :=
  match catalog.foldl
      (fun best s =>
        if Resources.fits pr.used s.resources then
          match best with
          | none => some s
          | some b => if s.price < b.price then some s else some b
        else best)
      none with
  | some s => { pr with shape := s }
  | none => pr

/-- Modelled from the spec: the Scheduling Simulator (spec 4.2) — a pure
function of (Snapshot, Capacity Catalog, pending pods) producing a
Placement Plan.  Pods are sorted largest-footprint first, placed onto
existing nodes with least waste, remaining pods are packed first-fit onto
shapes sorted by ascending price per unit, and each proposal's shape is
then shrunk to the cheapest shape that holds its pods.  The per-group
partitioning and constraint predicates of 4.2 steps 1-2 are elided because
no claim exercises affinity or selector constraints. -/
def simulate (snap : Snapshot) (catalog : List ShapeOffering) (pending : List PodRecord) :
    PlacementPlan :=
  let sorted := sortPodsDesc pending
  let r1 := placeExisting snap.nodes [] [] sorted
  let r2 := packPods (sortShapes catalog) [] [] r1.2.2
  ⟨r1.1, r2.1.map (shrinkProposal catalog), r2.2⟩

/-- All pod identities accounted for by a plan, across its three buckets. -/
def planPodIds (plan : PlacementPlan) : List String :=
  plan.assignments.map (fun a => a.podId)
    ++ plan.proposals.flatMap (fun pr => pr.podIds)
    ++ plan.unscheduled.map (fun u => u.1)

/-- The Tracker with one node hypothetically removed (spec 4.4: the engine
removes the node from a working Snapshot). -/
def fleetMinus (t : Tracker) (nid : String) : Tracker :=
  { t with nodes := t.nodes.filter (fun n => n.id ≠ nid) }

/-- Modelled from the spec: the Consolidation Engine's single-node check
(spec 4.4) — a node is a CandidateForDeletion when re-running the Simulator
restricted to its currently bound pods against the remaining fleet plus the
Capacity Catalog leaves no pod unscheduled. -/
def isCandidateForDeletion (t : Tracker) (catalog : List ShapeOffering) (nid : String) : Bool :=
  (simulate (snapshotOf (fleetMinus t nid)) catalog (boundPods t nid)).unscheduled.isEmpty

/-- Modelled from the spec: requesting termination of a node (spec 4.4) —
termination is requested from the cloud-provider collaborator only after
confirming zero bound pods in the latest Snapshot; the Tracker then marks
the node Deleting.  Returns `none` (no termination requested) when bound
pods remain. -/
def requestTermination (t : Tracker) (nid : String) : Option Tracker :=
  if (boundPods t nid).length = 0 then
    some { t with nodes := t.nodes.map (fun n => if n.id = nid then { n with phase := .Deleting } else n) }
  else none

/-- Modelled from the spec: a single Tracker input event, for reasoning
about event sequences (spec section 6 change-event contract). -/
inductive FleetEvent
  | nodeEv (n : NodeRecord) (k : ChangeKind)
  | podEv (p : PodRecord) (k : ChangeKind)
  deriving DecidableEq, Repr

/-- Apply one event to the Tracker (discarding the inconsistency flag,
which is a log record, not state). -/
def applyEvent (t : Tracker) : FleetEvent → Tracker
  | .nodeEv n k => applyNodeEvent t n k
  | .podEv p k => (applyPodEvent t p k).1

/-- Apply a sequence of events in order. -/
def applyEvents (t : Tracker) : List FleetEvent → Tracker
  | [] => t
  | e :: es => applyEvents (applyEvent t e) es

/-- An event is admissible in a state when it does not overcommit any node:
a node upsert must keep the node's allocatable at or above the usage of its
bound pods, and a pod upsert bound to an existing node must fit within that
node's allocatable.  Deletions and events for absent nodes are always
admissible.  (Events reflecting decisions of a well-behaved scheduler are
admissible.) -/
def admissible (t : Tracker) : FleetEvent → Bool
  | .nodeEv n k =>
    match k with
    | .Deleted => true
    | _ =>
      let t2 := applyNodeEvent t n k
      usedCpu t2 n.id ≤ n.allocatable.cpu && usedMem t2 n.id ≤ n.allocatable.memory
  | .podEv p k =>
    match k with
    | .Deleted => true
    | _ =>
      match p.nodeId with
      | none => true
      | some nid =>
        let t2 := (applyPodEvent t p k).1
        t.nodes.all (fun n =>
          n.id ≠ nid || (usedCpu t2 nid ≤ n.allocatable.cpu && usedMem t2 nid ≤ n.allocatable.memory))

/-- A sequence of events is admissible from a state when each event is
admissible in the state reached by its predecessors. -/
def admissibleSeq (t : Tracker) : List FleetEvent → Bool
  | [] => true
  | e :: es => admissible t e && admissibleSeq (applyEvent t e) es

/-!  Embedding of `cmd/controller/main.go`. -/

/-- The ten pprof paths registered by `registerPprof`
(`cmd/controller/main.go` lines 133-144). -/
def pprofPaths : List String :=
  ["/debug/pprof/", "/debug/pprof/cmdline", "/debug/pprof/profile", "/debug/pprof/symbol",
   "/debug/pprof/trace", "/debug/pprof/allocs", "/debug/pprof/heap", "/debug/pprof/block",
   "/debug/pprof/goroutine", "/debug/pprof/threadcreate"]

/-- `registerPprof` (`cmd/controller/main.go` lines 132-151): iterate the
handler map in some order, calling `AddMetricsExtraHandler` for each path;
return the first error and stop, or `nil` after all succeed.  `add` models
`AddMetricsExtraHandler` (`none` = success); `order` is the Go map
iteration order.  Returns the list of paths actually attempted and the
outcome. -/
def registerPprofRun (add : String → Option String) :
    List String → List String × Option String
  | [] => ([], none)
  | p :: rest =>
    match add p with
    | some e => ([p], some e)
    | none =>
      let r := registerPprofRun add rest
      (p :: r.1, r.2)

/-- The startup outcomes of `main` (`cmd/controller/main.go`): fatal exits
are the `utilruntime.Must` panic on pprof registration failure (line 98),
the `Fatalf` on config load failure (line 107), and the panic on manager
start failure (line 128); a configmap-watch failure is only logged
(line 111). -/
inductive StartupOutcome
  | running
  | fatalPprof
  | fatalConfig
  | fatalManagerStart
  deriving DecidableEq, Repr

/-- The error handling of `main` (`cmd/controller/main.go` lines 97-129)
as a function of which startup steps fail: pprof registration is attempted
only when `EnableProfiling` is set and its failure panics; a config load
error is fatal; a configmap-watch start error is logged and not fatal;
a manager start error panics. -/
def mainOutcome (profiling pprofErr cfgErr cmwErr startErr : Bool) : StartupOutcome :=
  if profiling && pprofErr then .fatalPprof
  else if cfgErr then .fatalConfig
  else if startErr then .fatalManagerStart
  else .running

/-- The pprof paths `main` attempts to register (`cmd/controller/main.go`
lines 97-99): `registerPprof` runs only when `EnableProfiling` is set. -/
def mainPprofAttempts (profiling : Bool) (add : String → Option String)
    (order : List String) : List String :=
  if profiling then (registerPprofRun add order).1 else []

/-!  Concrete instances used by the scenario claim and by witnesses. -/

/-- A pending pod of the spec's packing scenario: 2 CPU / 4 GiB requested. -/
def scenarioPod (i : Nat) : PodRecord := ⟨"p" ++ toString i, ⟨2000, 4096⟩, none, .Pending⟩

/-- The ten pending pods of the spec's packing scenario. -/
def scenarioPods : List PodRecord := (List.range 10).map (fun i => scenarioPod (i + 1))

/-- The 4 CPU / 16 GiB shape at $0.20/hr of the spec's packing scenario. -/
def shapeSmall : ShapeOffering := ⟨"4cpu-16gib", ⟨4000, 16384⟩, 20⟩

/-- The 8 CPU / 32 GiB shape at $0.35/hr of the spec's packing scenario. -/
def shapeBig : ShapeOffering := ⟨"8cpu-32gib", ⟨8000, 32768⟩, 35⟩

/-- The Capacity Catalog of the spec's packing scenario. -/
def scenarioCatalog : List ShapeOffering := [shapeSmall, shapeBig]

/-- The plan computed for the spec's packing scenario. -/
def scenarioPlan : PlacementPlan := simulate ⟨[]⟩ scenarioCatalog scenarioPods

/-- A two-node Tracker used as a consolidation witness: node `n1` hosts one
small pod and node `n2` is empty with room for it. -/
def consolidationTracker : Tracker :=
  ⟨[⟨"n1", "z1", ⟨4000, 16384⟩, .Ready⟩, ⟨"n2", "z1", ⟨8000, 32768⟩, .Ready⟩],
   [⟨"pA", ⟨2000, 4096⟩, some "n1", .Bound⟩]⟩

/-- A one-empty-node Tracker used as a termination witness. -/
def idleNodeTracker : Tracker := ⟨[⟨"n1", "z1", ⟨4000, 16384⟩, .Ready⟩], []⟩

/-- An event sequence that overcommits a node: a 1-CPU node receives a
2-CPU pod.  Each event is a legal Tracker input. -/
def overcommitSeq : List FleetEvent :=
  [.nodeEv ⟨"n1", "z1", ⟨1000, 1024⟩, .Ready⟩ .Added,
   .podEv ⟨"p1", ⟨2000, 2048⟩, some "n1", .Bound⟩ .Added]

/-- An admissible event sequence used as an invariant witness: the node has
room for the pod bound to it. -/
def admissibleSeqWitness : List FleetEvent :=
  [.nodeEv ⟨"n1", "z1", ⟨4000, 4096⟩, .Ready⟩ .Added,
   .podEv ⟨"p1", ⟨2000, 2048⟩, some "n1", .Bound⟩ .Added]

/-- The `idleNodeTracker` after its node is marked Deleting. -/
def idleNodeTrackerDeleting : Tracker := ⟨[⟨"n1", "z1", ⟨4000, 16384⟩, .Deleting⟩], []⟩

/-!  Supporting lemmas. -/

theorem nodeExists_of_mem {t : Tracker} {x : NodeRecord} (hx : x ∈ t.nodes) :
    nodeExists t x.id = true := by
  simp only [nodeExists, List.any_eq_true, decide_eq_true_eq]
  exact ⟨x, hx, rfl⟩

theorem filter_upsert {α : Type} (q : α → Bool) (l : List α) (a : α) (ha : q a = false) :
    (l.filter q ++ [a]).filter q = l.filter q := by
  simp [List.filter_append, List.filter_filter, ha]

theorem sum_le_of_sublist (l1 l2 : List Nat) (h : l1.Sublist l2) : l1.sum ≤ l2.sum :=
  List.Sublist.sum_le_sum h (fun a _ => Nat.zero_le a)

theorem filter_filter_sublist {α : Type} (g h : α → Bool) (l : List α) :
    (List.filter h (List.filter g l)).Sublist (List.filter h l) := by
  induction l with
  | nil => simp
  | cons a l ih =>
    by_cases hg : g a = true
    · by_cases hh : h a = true
      · simpa [List.filter_cons, hg, hh] using ih.cons₂ a
      · simpa [List.filter_cons, hg, hh] using ih
    · by_cases hh : h a = true
      · simpa [List.filter_cons, hg, hh] using ih.cons a
      · simpa [List.filter_cons, hg, hh] using ih

theorem boundPods_filter_sublist (nds : List NodeRecord) (ps : List PodRecord)
    (g : PodRecord → Bool) (nid : String) :
    (boundPods ⟨nds, ps.filter g⟩ nid).Sublist (boundPods ⟨nds, ps⟩ nid) := by
  simp only [boundPods, nodeExists]
  by_cases hc : (nds.any fun n => decide (n.id = nid)) = true
  · simpa [hc] using filter_filter_sublist g _ ps
  · simp [hc]

theorem boundPods_append_nonmatch (nds : List NodeRecord) (ps : List PodRecord)
    (p : PodRecord) (nid : String) (hp : p.nodeId ≠ some nid) :
    boundPods ⟨nds, ps ++ [p]⟩ nid = boundPods ⟨nds, ps⟩ nid := by
  simp only [boundPods, nodeExists, List.filter_append]
  by_cases hc : (nds.any fun n => decide (n.id = nid)) = true <;>
    simp [hc, List.filter_cons, hp]

theorem boundPods_nodes_irrelevant (nds nds' : List NodeRecord) (ps : List PodRecord)
    (nid : String) (h : nodeExists ⟨nds', ps⟩ nid = nodeExists ⟨nds, ps⟩ nid) :
    boundPods ⟨nds', ps⟩ nid = boundPods ⟨nds, ps⟩ nid := by
  simp only [boundPods]
  rw [h]

theorem usedCpu_mono {t1 t2 : Tracker} {nid : String}
    (h : (boundPods t1 nid).Sublist (boundPods t2 nid)) : usedCpu t1 nid ≤ usedCpu t2 nid :=
  sum_le_of_sublist _ _ (h.map _)

theorem usedMem_mono {t1 t2 : Tracker} {nid : String}
    (h : (boundPods t1 nid).Sublist (boundPods t2 nid)) : usedMem t1 nid ≤ usedMem t2 nid :=
  sum_le_of_sublist _ _ (h.map _)

theorem allocOk_mem {t : Tracker} (h : allocOk t = true) {x : NodeRecord} (hx : x ∈ t.nodes) :
    usedCpu t x.id ≤ x.allocatable.cpu ∧ usedMem t x.id ≤ x.allocatable.memory := by
  have := (List.all_eq_true.mp h) x hx
  simpa [Bool.and_eq_true, decide_eq_true_eq] using this

/-- Usage of a node is unchanged by a node-map change that preserves the
node's existence. -/
theorem used_eq_of_nodes_change (nds nds' : List NodeRecord) (ps : List PodRecord)
    (nid : String) (h : nodeExists ⟨nds', ps⟩ nid = nodeExists ⟨nds, ps⟩ nid) :
    usedCpu ⟨nds', ps⟩ nid = usedCpu ⟨nds, ps⟩ nid ∧
      usedMem ⟨nds', ps⟩ nid = usedMem ⟨nds, ps⟩ nid := by
  unfold usedCpu usedMem
  rw [boundPods_nodes_irrelevant nds nds' ps nid h]
  exact ⟨rfl, rfl⟩

/-- Upserting a node whose allocatable covers its pods' usage preserves the
allocatable invariant. -/
theorem allocOk_upsertNode (t : Tracker) (n : NodeRecord)
    (h0 : allocOk t = true)
    (hcpu : usedCpu ⟨t.nodes.filter (fun m => m.id ≠ n.id) ++ [n], t.pods⟩ n.id ≤
      n.allocatable.cpu)
    (hmem : usedMem ⟨t.nodes.filter (fun m => m.id ≠ n.id) ++ [n], t.pods⟩ n.id ≤
      n.allocatable.memory) :
    allocOk ⟨t.nodes.filter (fun m => m.id ≠ n.id) ++ [n], t.pods⟩ = true := by
  rw [allocOk, List.all_eq_true]
  intro x hx
  rcases List.mem_append.mp hx with hxf | hxn
  · have hxt : x ∈ t.nodes := (List.mem_filter.mp hxf).1
    have hex : nodeExists ⟨t.nodes.filter (fun m => m.id ≠ n.id) ++ [n], t.pods⟩ x.id =
        nodeExists ⟨t.nodes, t.pods⟩ x.id := by
      rw [nodeExists_of_mem (t := ⟨t.nodes.filter (fun m => m.id ≠ n.id) ++ [n], t.pods⟩) hx]
      rw [nodeExists_of_mem (t := ⟨t.nodes, t.pods⟩) hxt]
    have heq := used_eq_of_nodes_change t.nodes _ t.pods x.id hex
    have hb := allocOk_mem h0 (x := x) hxt
    simp only [Bool.and_eq_true, decide_eq_true_eq]
    exact ⟨heq.1 ▸ hb.1, heq.2 ▸ hb.2⟩
  · have hxn' : x = n := by simpa using hxn
    subst hxn'
    simp only [Bool.and_eq_true, decide_eq_true_eq]
    exact ⟨hcpu, hmem⟩

/-- Removing a node preserves the allocatable invariant. -/
theorem allocOk_removeNode (t : Tracker) (n : NodeRecord) (h0 : allocOk t = true) :
    allocOk ⟨t.nodes.filter (fun m => m.id ≠ n.id), t.pods⟩ = true := by
  rw [allocOk, List.all_eq_true]
  intro x hx
  have hxt : x ∈ t.nodes := (List.mem_filter.mp hx).1
  have hex : nodeExists ⟨t.nodes.filter (fun m => m.id ≠ n.id), t.pods⟩ x.id =
      nodeExists ⟨t.nodes, t.pods⟩ x.id := by
    rw [nodeExists_of_mem (t := ⟨t.nodes.filter (fun m => m.id ≠ n.id), t.pods⟩) hx]
    rw [nodeExists_of_mem (t := ⟨t.nodes, t.pods⟩) hxt]
  have heq := used_eq_of_nodes_change t.nodes _ t.pods x.id hex
  have hb := allocOk_mem h0 (x := x) hxt
  simp only [Bool.and_eq_true, decide_eq_true_eq]
  exact ⟨heq.1 ▸ hb.1, heq.2 ▸ hb.2⟩

/-- Removing pods preserves the allocatable invariant. -/
theorem allocOk_filterPods (t : Tracker) (g : PodRecord → Bool) (h0 : allocOk t = true) :
    allocOk ⟨t.nodes, t.pods.filter g⟩ = true := by
  rw [allocOk, List.all_eq_true]
  intro x hx
  have hb := allocOk_mem h0 (x := x) hx
  have hs := boundPods_filter_sublist t.nodes t.pods g x.id
  simp only [Bool.and_eq_true, decide_eq_true_eq]
  exact ⟨le_trans (usedCpu_mono hs) hb.1, le_trans (usedMem_mono hs) hb.2⟩

/-- Upserting a pod that fits its target node preserves the allocatable
invariant. -/
theorem allocOk_upsertPod (t : Tracker) (p : PodRecord)
    (h0 : allocOk t = true)
    (hadm : ∀ nid, p.nodeId = some nid → ∀ x ∈ t.nodes, x.id = nid →
      usedCpu ⟨t.nodes, t.pods.filter (fun q => q.id ≠ p.id) ++ [p]⟩ nid ≤ x.allocatable.cpu ∧
      usedMem ⟨t.nodes, t.pods.filter (fun q => q.id ≠ p.id) ++ [p]⟩ nid ≤ x.allocatable.memory) :
    allocOk ⟨t.nodes, t.pods.filter (fun q => q.id ≠ p.id) ++ [p]⟩ = true := by
  rw [allocOk, List.all_eq_true]
  intro x hx
  simp only [Bool.and_eq_true, decide_eq_true_eq]
  by_cases hmatch : p.nodeId = some x.id
  · exact hadm x.id hmatch x hx rfl
  · have he := boundPods_append_nonmatch t.nodes (t.pods.filter (fun q => q.id ≠ p.id)) p
      x.id hmatch
    have hs := boundPods_filter_sublist t.nodes t.pods (fun q => q.id ≠ p.id) x.id
    have hb := allocOk_mem h0 (x := x) hx
    constructor
    · calc usedCpu ⟨t.nodes, t.pods.filter (fun q => q.id ≠ p.id) ++ [p]⟩ x.id
          = usedCpu ⟨t.nodes, t.pods.filter (fun q => q.id ≠ p.id)⟩ x.id := by
            unfold usedCpu; rw [he]
        _ ≤ usedCpu ⟨t.nodes, t.pods⟩ x.id := usedCpu_mono hs
        _ ≤ x.allocatable.cpu := hb.1
    · calc usedMem ⟨t.nodes, t.pods.filter (fun q => q.id ≠ p.id) ++ [p]⟩ x.id
          = usedMem ⟨t.nodes, t.pods.filter (fun q => q.id ≠ p.id)⟩ x.id := by
            unfold usedMem; rw [he]
        _ ≤ usedMem ⟨t.nodes, t.pods⟩ x.id := usedMem_mono hs
        _ ≤ x.allocatable.memory := hb.2

/-- One admissible event preserves the allocatable invariant. -/
theorem allocOk_step (t : Tracker) (e : FleetEvent)
    (h0 : allocOk t = true) (ha : admissible t e = true) :
    allocOk (applyEvent t e) = true := by
  cases e with
  | nodeEv n k =>
    cases k with
    | Deleted => exact allocOk_removeNode t n h0
    | Added =>
      simp only [admissible, Bool.and_eq_true, decide_eq_true_eq] at ha
      exact allocOk_upsertNode t n h0 ha.1 ha.2
    | Updated =>
      simp only [admissible, Bool.and_eq_true, decide_eq_true_eq] at ha
      exact allocOk_upsertNode t n h0 ha.1 ha.2
  | podEv p k =>
    cases k with
    | Deleted => exact allocOk_filterPods t (fun q => q.id ≠ p.id) h0
    | Added =>
      refine allocOk_upsertPod t p h0 ?_
      intro nid hnid x hx hxid
      simp only [admissible, hnid, List.all_eq_true] at ha
      have := ha x hx
      simp only [hxid, Bool.or_eq_true, Bool.and_eq_true, decide_eq_true_eq] at this
      rcases this with hcontra | hok
      · exact absurd rfl hcontra
      · exact hok
    | Updated =>
      refine allocOk_upsertPod t p h0 ?_
      intro nid hnid x hx hxid
      simp only [admissible, hnid, List.all_eq_true] at ha
      have := ha x hx
      simp only [hxid, Bool.or_eq_true, Bool.and_eq_true, decide_eq_true_eq] at this
      rcases this with hcontra | hok
      · exact absurd rfl hcontra
      · exact hok

theorem mem_insertDesc {a p : PodRecord} {l : List PodRecord} :
    a ∈ insertDesc p l ↔ a = p ∨ a ∈ l := by
  induction l with
  | nil => simp [insertDesc]
  | cons q rest ih =>
    simp only [insertDesc]
    split
    · simp [List.mem_cons]
    · simp only [List.mem_cons, ih]
      tauto

theorem mem_sortPodsDesc {a : PodRecord} {l : List PodRecord} :
    a ∈ sortPodsDesc l ↔ a ∈ l := by
  induction l with
  | nil => simp [sortPodsDesc]
  | cons p rest ih => simp [sortPodsDesc, mem_insertDesc, ih]

theorem placeExisting_cons_some {nodesRem : List (String × Resources)} {acc : List Assignment}
    {left : List PodRecord} {p : PodRecord} {rest : List PodRecord} {c : String × Resources}
    (hbe : bestExisting p.requests nodesRem = some c) :
    placeExisting nodesRem acc left (p :: rest) =
      placeExisting (updateRem nodesRem c.1 p.requests) (acc ++ [⟨p.id, c.1⟩]) left rest := by
  simp [placeExisting, hbe]

theorem placeExisting_cons_none {nodesRem : List (String × Resources)} {acc : List Assignment}
    {left : List PodRecord} {p : PodRecord} {rest : List PodRecord}
    (hbe : bestExisting p.requests nodesRem = none) :
    placeExisting nodesRem acc left (p :: rest) =
      placeExisting nodesRem acc (left ++ [p]) rest := by
  simp [placeExisting, hbe]

theorem placeExisting_acc_sub (rest : List PodRecord) :
    ∀ (nodesRem : List (String × Resources)) (acc : List Assignment) (left : List PodRecord),
      (∀ a ∈ acc, a ∈ (placeExisting nodesRem acc left rest).1) ∧
        (∀ q ∈ left, q ∈ (placeExisting nodesRem acc left rest).2.2) := by
  induction rest with
  | nil => exact fun n acc left => ⟨fun a ha => ha, fun q hq => hq⟩
  | cons p rest ih =>
    intro n acc left
    cases hbe : bestExisting p.requests n with
    | some c =>
      rw [placeExisting_cons_some hbe]
      refine ⟨fun a ha => ?_, (ih _ _ _).2⟩
      exact (ih _ _ _).1 a (List.mem_append.mpr (Or.inl ha))
    | none =>
      rw [placeExisting_cons_none hbe]
      refine ⟨(ih _ _ _).1, fun q hq => ?_⟩
      exact (ih _ _ _).2 q (List.mem_append.mpr (Or.inl hq))

theorem placeExisting_covers (rest : List PodRecord) (p : PodRecord) (hp : p ∈ rest) :
    ∀ (nodesRem : List (String × Resources)) (acc : List Assignment) (left : List PodRecord),
      p.id ∈ (placeExisting nodesRem acc left rest).1.map (fun a => a.podId) ∨
        p ∈ (placeExisting nodesRem acc left rest).2.2 := by
  induction rest with
  | nil => cases hp
  | cons q rest ih =>
    intro nodesRem acc left
    rcases List.mem_cons.mp hp with rfl | hmem
    · cases hbe : bestExisting p.requests nodesRem with
      | some c =>
        rw [placeExisting_cons_some hbe]
        left
        have : (⟨p.id, c.1⟩ : Assignment) ∈
            (placeExisting (updateRem nodesRem c.1 p.requests) (acc ++ [⟨p.id, c.1⟩]) left
              rest).1 :=
          (placeExisting_acc_sub rest _ _ _).1 _ (List.mem_append.mpr (Or.inr (by simp)))
        exact List.mem_map.mpr ⟨_, this, rfl⟩
      | none =>
        rw [placeExisting_cons_none hbe]
        right
        exact (placeExisting_acc_sub rest _ _ _).2 p (List.mem_append.mpr (Or.inr (by simp)))
    · cases hbe : bestExisting q.requests nodesRem with
      | some c =>
        rw [placeExisting_cons_some hbe]
        exact ih hmem _ _ _
      | none =>
        rw [placeExisting_cons_none hbe]
        exact ih hmem _ _ _

theorem tryPlaceOpen_sup {p : PodRecord} {opened opened2 : List NewNodeProposal}
    (h : tryPlaceOpen p opened = some opened2) :
    (∀ x, x ∈ opened.flatMap (fun pr => pr.podIds) →
        x ∈ opened2.flatMap (fun pr => pr.podIds)) ∧
      p.id ∈ opened2.flatMap (fun pr => pr.podIds) := by
  induction opened generalizing opened2 with
  | nil => cases h
  | cons pr rest ih =>
    simp only [tryPlaceOpen] at h
    split at h
    · cases h
      constructor
      · intro x hx
        simp only [List.flatMap_cons, List.mem_append] at hx ⊢
        tauto
      · simp
    · cases hrec : tryPlaceOpen p rest with
      | some rest2 =>
        rw [hrec] at h
        cases h
        rcases ih hrec with ⟨hsup, hmem⟩
        constructor
        · intro x hx
          simp only [List.flatMap_cons, List.mem_append] at hx ⊢
          rcases hx with hx | hx
          · tauto
          · exact Or.inr (hsup x hx)
        · simp only [List.flatMap_cons, List.mem_append]
          exact Or.inr hmem
      | none => rw [hrec] at h; cases h

theorem packPods_mono (rest : List PodRecord) (shapes : List ShapeOffering)
    (opened : List NewNodeProposal) (uns : List (String × UnschedReason)) (x : String)
    (hx : x ∈ opened.flatMap (fun pr => pr.podIds) ∨ x ∈ uns.map (fun u => u.1)) :
    x ∈ (packPods shapes opened uns rest).1.flatMap (fun pr => pr.podIds) ∨
      x ∈ (packPods shapes opened uns rest).2.map (fun u => u.1) := by
  induction rest generalizing opened uns with
  | nil => simpa [packPods] using hx
  | cons p rest ih =>
    simp only [packPods]
    cases hto : tryPlaceOpen p opened with
    | some opened2 =>
      refine ih opened2 uns ?_
      rcases hx with h | h
      · exact Or.inl ((tryPlaceOpen_sup hto).1 x h)
      · exact Or.inr h
    | none =>
      cases hff : findFit p.requests shapes with
      | some s =>
        refine ih _ uns ?_
        rcases hx with h | h
        · exact Or.inl (by simp only [List.flatMap_append, List.mem_append]; exact Or.inl h)
        · exact Or.inr h
      | none =>
        refine ih opened _ ?_
        rcases hx with h | h
        · exact Or.inl h
        · exact Or.inr (by simp only [List.map_append, List.mem_append]; exact Or.inl h)

theorem packPods_covers (rest : List PodRecord) (shapes : List ShapeOffering)
    (opened : List NewNodeProposal) (uns : List (String × UnschedReason))
    (p : PodRecord) (hp : p ∈ rest) :
    p.id ∈ (packPods shapes opened uns rest).1.flatMap (fun pr => pr.podIds) ∨
      p.id ∈ (packPods shapes opened uns rest).2.map (fun u => u.1) := by
  induction rest generalizing opened uns with
  | nil => cases hp
  | cons q rest ih =>
    rcases List.mem_cons.mp hp with rfl | hmem
    · simp only [packPods]
      cases hto : tryPlaceOpen p opened with
      | some opened2 =>
        exact packPods_mono rest shapes opened2 uns p.id (Or.inl (tryPlaceOpen_sup hto).2)
      | none =>
        cases hff : findFit p.requests shapes with
        | some s =>
          refine packPods_mono rest shapes _ uns p.id (Or.inl ?_)
          simp
        | none =>
          refine packPods_mono rest shapes opened _ p.id (Or.inr ?_)
          simp
    · simp only [packPods]
      cases hto : tryPlaceOpen q opened with
      | some opened2 => exact ih opened2 uns hmem
      | none =>
        cases hff : findFit q.requests shapes with
        | some s => exact ih _ uns hmem
        | none => exact ih opened _ hmem

theorem shrink_podIds (catalog : List ShapeOffering) (pr : NewNodeProposal) :
    (shrinkProposal catalog pr).podIds = pr.podIds := by
  unfold shrinkProposal
  split <;> rfl

theorem shrink_ids (catalog : List ShapeOffering) (l : List NewNodeProposal) :
    (l.map (shrinkProposal catalog)).flatMap (fun pr => pr.podIds) =
      l.flatMap (fun pr => pr.podIds) := by
  induction l with
  | nil => rfl
  | cons pr rest ih => simp [shrink_podIds, ih]

/-- Every pending pod ends up in exactly one of the plan's buckets: the
Simulator gives each input a typed outcome. -/
theorem simulate_covers (snap : Snapshot) (catalog : List ShapeOffering)
    (pending : List PodRecord) (p : PodRecord) (hp : p ∈ pending) :
    p.id ∈ planPodIds (simulate snap catalog pending) := by
  unfold simulate planPodIds
  simp only [List.mem_append, shrink_ids]
  have hsorted : p ∈ sortPodsDesc pending := mem_sortPodsDesc.mpr hp
  rcases placeExisting_covers _ p hsorted snap.nodes [] [] with h1 | h1
  · tauto
  · rcases packPods_covers _ (sortShapes catalog) [] [] p h1 with h2 | h2 <;> tauto

/-!  Claim theorems. -/

/-- C3: for every node the Consolidation Engine marks CandidateForDeletion,
re-running the Scheduling Simulator restricted to that node's bound pods
against the fleet with that node removed plus the Capacity Catalog leaves
no pod unscheduled, and every such pod is placed (onto an existing node or
a proposed new shape). -/
theorem consolidation_sound (t : Tracker) (catalog : List ShapeOffering) (nid : String)
    (h : isCandidateForDeletion t catalog nid = true) :
    (simulate (snapshotOf (fleetMinus t nid)) catalog (boundPods t nid)).unscheduled = [] ∧
      ∀ p ∈ boundPods t nid,
        p.id ∈ (simulate (snapshotOf (fleetMinus t nid)) catalog
            (boundPods t nid)).assignments.map (fun a => a.podId) ∨
          p.id ∈ (simulate (snapshotOf (fleetMinus t nid)) catalog
            (boundPods t nid)).proposals.flatMap (fun pr => pr.podIds) := by
  have hemp : (simulate (snapshotOf (fleetMinus t nid)) catalog
      (boundPods t nid)).unscheduled = [] := by
    unfold isCandidateForDeletion at h
    exact List.isEmpty_iff.mp h
  refine ⟨hemp, fun p hp => ?_⟩
  have hcov := simulate_covers (snapshotOf (fleetMinus t nid)) catalog (boundPods t nid) p hp
  unfold planPodIds at hcov
  rw [hemp] at hcov
  simpa using hcov

/-- Witness for C3: node `n1` of the two-node tracker is a candidate, and
its single bound pod re-places onto `n2`. -/
theorem consolidation_sound_witness :
    (simulate (snapshotOf (fleetMinus consolidationTracker "n1")) scenarioCatalog
        (boundPods consolidationTracker "n1")).unscheduled = [] ∧
      ∀ p ∈ boundPods consolidationTracker "n1",
        p.id ∈ (simulate (snapshotOf (fleetMinus consolidationTracker "n1")) scenarioCatalog
            (boundPods consolidationTracker "n1")).assignments.map (fun a => a.podId) ∨
          p.id ∈ (simulate (snapshotOf (fleetMinus consolidationTracker "n1")) scenarioCatalog
            (boundPods consolidationTracker "n1")).proposals.flatMap (fun pr => pr.podIds) :=
  consolidation_sound consolidationTracker scenarioCatalog "n1" (by decide)

/-- C8: the Simulator gives every input pod a typed outcome (an assignment,
a new-node proposal, or an unscheduled record with a typed reason) rather
than aborting, and in `main` the only fatal exits are the startup failures
(pprof registration when profiling is enabled, config load, manager start);
the configmap-watch degradation is never fatal. -/
theorem typed_outcomes_no_panic (snap : Snapshot) (catalog : List ShapeOffering)
    (pending : List PodRecord) (p : PodRecord) (hp : p ∈ pending) :
    p.id ∈ planPodIds (simulate snap catalog pending) ∧
      (∀ profiling pprofErr cfgErr cmwErr startErr : Bool,
        mainOutcome profiling pprofErr cfgErr cmwErr startErr = StartupOutcome.running ↔
          ((profiling && pprofErr) = false ∧ cfgErr = false ∧ startErr = false)) :=
  ⟨simulate_covers snap catalog pending p hp, by decide⟩

/-- Witness for C8 at the packing scenario's first pod. -/
theorem typed_outcomes_no_panic_witness :
    (scenarioPod 1).id ∈ planPodIds (simulate ⟨[]⟩ scenarioCatalog scenarioPods) ∧
      (∀ profiling pprofErr cfgErr cmwErr startErr : Bool,
        mainOutcome profiling pprofErr cfgErr cmwErr startErr = StartupOutcome.running ↔
          ((profiling && pprofErr) = false ∧ cfgErr = false ∧ startErr = false)) :=
  typed_outcomes_no_panic ⟨[]⟩ scenarioCatalog scenarioPods (scenarioPod 1) (by decide)

theorem regRun_none_iff (add : String → Option String) (order : List String) :
    (registerPprofRun add order).2 = none ↔ ∀ p ∈ order, add p = none := by
  induction order with
  | nil => simp [registerPprofRun]
  | cons p rest ih =>
    simp only [registerPprofRun]
    cases hadd : add p with
    | some e => simp [hadd]
    | none => simp [hadd, ih]

theorem regRun_err (add : String → Option String) (order : List String) :
    ∀ e, (registerPprofRun add order).2 = some e →
      ∃ pre q post, order = pre ++ q :: post ∧ (∀ r ∈ pre, add r = none) ∧ add q = some e ∧
        (registerPprofRun add order).1 = pre ++ [q] := by
  induction order with
  | nil => intro e h; simp [registerPprofRun] at h
  | cons p rest ih =>
    intro e h
    cases hadd : add p with
    | some e2 =>
      have he : e2 = e := by
        simp only [registerPprofRun, hadd] at h
        exact Option.some.inj h
      subst he
      exact ⟨[], p, rest, by simp, by simp, hadd, by simp [registerPprofRun, hadd]⟩
    | none =>
      have h2 : (registerPprofRun add rest).2 = some e := by
        simpa only [registerPprofRun, hadd] using h
      rcases ih e h2 with ⟨pre, q, post, hor, hpre, hq, hatt⟩
      refine ⟨p :: pre, q, post, by simp [hor], ?_, hq, ?_⟩
      · intro r hr
        rcases List.mem_cons.mp hr with rfl | hr
        · exact hadd
        · exact hpre r hr
      · simp [registerPprofRun, hadd, hatt]

/-- C10: pprof handlers are registered iff `EnableProfiling` is set;
`registerPprof` attempts exactly the ten `/debug/pprof/` paths (in the map
iteration order), stops at the first registration failure returning that
error, and returns nil exactly when all ten registrations succeed. -/
theorem pprof_registration (profiling : Bool) (add : String → Option String)
    (order : List String) (hperm : List.Perm order pprofPaths) :
    pprofPaths.length = 10 ∧
      (mainPprofAttempts profiling add order ≠ [] ↔ profiling = true) ∧
      ((registerPprofRun add order).2 = none ↔ ∀ p ∈ pprofPaths, add p = none) ∧
      (∀ e, (registerPprofRun add order).2 = some e →
        ∃ pre q post, order = pre ++ q :: post ∧ (∀ r ∈ pre, add r = none) ∧ add q = some e ∧
          (registerPprofRun add order).1 = pre ++ [q]) := by
  refine ⟨rfl, ?_, ?_, regRun_err add order⟩
  · unfold mainPprofAttempts
    cases profiling with
    | false => simp
    | true =>
      simp only [if_pos rfl]
      have hne : order ≠ [] := by
        intro h0
        have := hperm.length_eq
        rw [h0] at this
        simp [pprofPaths] at this
      constructor
      · intro _; trivial
      · intro _
        cases order with
        | nil => exact absurd rfl hne
        | cons a rest =>
          simp only [registerPprofRun]
          cases add a <;> simp
  · rw [regRun_none_iff]
    constructor
    · intro hall q hq
      exact hall q (hperm.mem_iff.mpr hq)
    · intro hall q hq
      exact hall q (hperm.mem_iff.mp hq)

/-- Witness for C10: profiling enabled, every registration succeeding, the
map iterated in declaration order. -/
theorem pprof_registration_witness :
    pprofPaths.length = 10 ∧
      (mainPprofAttempts true (fun _ => none) pprofPaths ≠ [] ↔ true = true) ∧
      ((registerPprofRun (fun _ => none) pprofPaths).2 = none ↔
        ∀ p ∈ pprofPaths, (fun _ : String => (none : Option String)) p = none) ∧
      (∀ e, (registerPprofRun (fun _ => none) pprofPaths).2 = some e →
        ∃ pre q post, pprofPaths = pre ++ q :: post ∧
          (∀ r ∈ pre, (fun _ : String => (none : Option String)) r = none) ∧
          (fun _ : String => (none : Option String)) q = some e ∧
          (registerPprofRun (fun _ => none) pprofPaths).1 = pre ++ [q]) :=
  pprof_registration true (fun _ => none) pprofPaths (List.Perm.refl _)

/-- C2 counterexample: the invariant does not hold after arbitrary event
sequences — a node added with 1 CPU / 1 GiB allocatable followed by a pod
bound to it requesting 2 CPU / 2 GiB is a reachable Tracker state whose
bound-pod sum exceeds the node's allocatable. -/
theorem allocatable_invariant_violable :
    allocOk (applyEvents Tracker.empty overcommitSeq) = false := by decide

/-- C2 (amended): in every Tracker state reached by a sequence of
admissible ApplyNodeEvent/ApplyPodEvent calls (each pod upsert fits within
its node's allocatable and each node upsert keeps allocatable at or above
its pods' usage) from a state satisfying the invariant, the sum of the
resource requests of the pods bound to each node is at most the node's
allocatable; remaining capacity is never negative. -/
theorem allocatable_invariant_admissible (t : Tracker) (es : List FleetEvent)
    (h0 : allocOk t = true) (ha : admissibleSeq t es = true) :
    allocOk (applyEvents t es) = true := by
  induction es generalizing t with
  | nil => exact h0
  | cons e es ih =>
    simp only [admissibleSeq, Bool.and_eq_true] at ha
    exact ih (applyEvent t e) (allocOk_step t e h0 ha.1) ha.2

/-- Witness for C2 (amended) at a concrete admissible two-event sequence. -/
theorem allocatable_invariant_admissible_witness :
    allocOk (applyEvents Tracker.empty admissibleSeqWitness) = true :=
  allocatable_invariant_admissible Tracker.empty admissibleSeqWitness (by decide) (by decide)

/-- C7: on the spec's packing scenario — ten pending pods of 2 CPU / 4 GiB,
no existing spare capacity, catalog {4CPU/16GiB @ $0.20/hr,
8CPU/32GiB @ $0.35/hr} — the Simulator's plan proposes exactly two
8CPU/32GiB nodes hosting four pods each (eight pods) and one 4CPU/16GiB
node hosting the remaining two, no assignments and no unscheduled pods;
moreover no two catalog shapes can supply the CPU demand (so three nodes is
the smallest count) and every feasible three-shape multiset costs at least
the plan's aggregate price of $0.90/hr. -/
theorem scenario_packing :
    scenarioPlan.assignments = [] ∧
      scenarioPlan.unscheduled = [] ∧
      scenarioPlan.proposals.map (fun pr => (pr.shape.name, pr.podIds.length)) =
        [("8cpu-32gib", 4), ("8cpu-32gib", 4), ("4cpu-16gib", 2)] ∧
      (scenarioPlan.proposals.map (fun pr => pr.shape.price)).sum = 90 ∧
      scenarioPlan.proposals.length = 3 ∧
      (∀ s1 ∈ scenarioCatalog, ∀ s2 ∈ scenarioCatalog,
        s1.resources.cpu + s2.resources.cpu <
          (scenarioPods.map (fun p => p.requests.cpu)).sum) ∧
      (∀ s1 ∈ scenarioCatalog, ∀ s2 ∈ scenarioCatalog, ∀ s3 ∈ scenarioCatalog,
        (scenarioPods.map (fun p => p.requests.cpu)).sum ≤
            s1.resources.cpu + s2.resources.cpu + s3.resources.cpu →
          90 ≤ s1.price + s2.price + s3.price) := by
  decide

/-- C4: the Scheduling Simulator is a deterministic function of its inputs:
for identical Snapshot, Capacity Catalog and pending-pod set, two runs
produce identical Placement Plans. -/
theorem simulate_deterministic (snap snap' : Snapshot) (catalog catalog' : List ShapeOffering)
    (pending pending' : List PodRecord)
    (hs : snap = snap') (hc : catalog = catalog') (hp : pending = pending') :
    simulate snap catalog pending = simulate snap' catalog' pending' := by
  subst hs hc hp
  rfl

/-- Witness for C4 at the packing scenario's inputs. -/
theorem simulate_deterministic_witness :
    simulate ⟨[]⟩ scenarioCatalog scenarioPods = simulate ⟨[]⟩ scenarioCatalog scenarioPods :=
  simulate_deterministic ⟨[]⟩ ⟨[]⟩ scenarioCatalog scenarioCatalog scenarioPods scenarioPods
    rfl rfl rfl

/-- C1: termination is requested (and the node transitioned to Deleting)
only when the Snapshot immediately prior shows zero pods bound to that
node; the node's phase in the resulting state is Deleting. -/
theorem no_stranding (t : Tracker) (nid : String) (t2 : Tracker)
    (h : requestTermination t nid = some t2) :
    boundPods t nid = [] ∧ ∀ n ∈ t2.nodes, n.id = nid → n.phase = NodePhase.Deleting := by
  unfold requestTermination at h
  split at h
  case isTrue hlen =>
    refine ⟨List.length_eq_zero.mp hlen, ?_⟩
    cases h
    intro n hn hid
    rcases List.mem_map.mp hn with ⟨m, hm, rfl⟩
    by_cases hmid : m.id = nid
    · simp [hmid]
    · simp [hmid] at hid
  case isFalse => exact Option.noConfusion h

/-- Witness for C1: an idle node is terminated, its prior bound-pod list is
empty and its phase afterwards is Deleting. -/
theorem no_stranding_witness :
    boundPods idleNodeTracker "n1" = [] ∧
      ∀ n ∈ idleNodeTrackerDeleting.nodes, n.id = "n1" → n.phase = NodePhase.Deleting :=
  no_stranding idleNodeTracker "n1" idleNodeTrackerDeleting (by decide)

/-- C5: applying the same Added/Updated node or pod event twice in
succession yields a Tracker state identical to applying it once (usage is
recomputed from the node's pods on every query, never accumulated). -/
theorem event_apply_idempotent (t : Tracker) (n : NodeRecord) (p : PodRecord) (k : ChangeKind)
    (hk : k = ChangeKind.Added ∨ k = ChangeKind.Updated) :
    applyNodeEvent (applyNodeEvent t n k) n k = applyNodeEvent t n k ∧
      (applyPodEvent (applyPodEvent t p k).1 p k).1 = (applyPodEvent t p k).1 := by
  rcases hk with rfl | rfl <;>
    refine ⟨?_, ?_⟩ <;>
      simp [applyNodeEvent, applyPodEvent, List.filter_append, List.filter_filter]

/-- Witness for C5 at a concrete node, pod and Added event. -/
theorem event_apply_idempotent_witness :
    applyNodeEvent
        (applyNodeEvent Tracker.empty ⟨"n1", "z1", ⟨4000, 16384⟩, NodePhase.Ready⟩
          ChangeKind.Added)
        ⟨"n1", "z1", ⟨4000, 16384⟩, NodePhase.Ready⟩ ChangeKind.Added =
      applyNodeEvent Tracker.empty ⟨"n1", "z1", ⟨4000, 16384⟩, NodePhase.Ready⟩
        ChangeKind.Added ∧
    (applyPodEvent
        (applyPodEvent Tracker.empty ⟨"p1", ⟨2000, 2048⟩, some "n1", PodPhase.Bound⟩
          ChangeKind.Added).1
        ⟨"p1", ⟨2000, 2048⟩, some "n1", PodPhase.Bound⟩ ChangeKind.Added).1 =
      (applyPodEvent Tracker.empty ⟨"p1", ⟨2000, 2048⟩, some "n1", PodPhase.Bound⟩
        ChangeKind.Added).1 :=
  event_apply_idempotent Tracker.empty ⟨"n1", "z1", ⟨4000, 16384⟩, NodePhase.Ready⟩
    ⟨"p1", ⟨2000, 2048⟩, some "n1", PodPhase.Bound⟩ ChangeKind.Added (Or.inl rfl)

/-- C6: a pod-bound event for node X applied before X's own Added event is
recorded as an inconsistency, the pod is treated as unbound, and once X's
Added event arrives the Tracker state is identical to the state obtained by
applying the two events in order. -/
theorem out_of_order_pod_event (t : Tracker) (p : PodRecord) (n : NodeRecord)
    (hbind : p.nodeId = some n.id) (habs : nodeExists t n.id = false) :
    (applyPodEvent t p ChangeKind.Added).2 = true ∧
      podBoundNode (applyPodEvent t p ChangeKind.Added).1 p = none ∧
      applyNodeEvent (applyPodEvent t p ChangeKind.Added).1 n ChangeKind.Added =
        (applyPodEvent (applyNodeEvent t n ChangeKind.Added) p ChangeKind.Added).1 := by
  refine ⟨?_, ?_, rfl⟩
  · simp [applyPodEvent, hbind, habs]
  · have hsame : nodeExists (applyPodEvent t p ChangeKind.Added).1 n.id = false := habs
    simp [podBoundNode, hbind, hsame]

/-- Witness for C6: a pod bound to the not-yet-known node `nX`. -/
theorem out_of_order_pod_event_witness :
    (applyPodEvent Tracker.empty ⟨"pX", ⟨1000, 1024⟩, some "nX", PodPhase.Bound⟩
        ChangeKind.Added).2 = true ∧
      podBoundNode
          (applyPodEvent Tracker.empty ⟨"pX", ⟨1000, 1024⟩, some "nX", PodPhase.Bound⟩
            ChangeKind.Added).1
          ⟨"pX", ⟨1000, 1024⟩, some "nX", PodPhase.Bound⟩ = none ∧
      applyNodeEvent
          (applyPodEvent Tracker.empty ⟨"pX", ⟨1000, 1024⟩, some "nX", PodPhase.Bound⟩
            ChangeKind.Added).1
          ⟨"nX", "z1", ⟨4000, 4096⟩, NodePhase.Ready⟩ ChangeKind.Added =
        (applyPodEvent
            (applyNodeEvent Tracker.empty ⟨"nX", "z1", ⟨4000, 4096⟩, NodePhase.Ready⟩
              ChangeKind.Added)
            ⟨"pX", ⟨1000, 1024⟩, some "nX", PodPhase.Bound⟩ ChangeKind.Added).1 :=
  out_of_order_pod_event Tracker.empty ⟨"pX", ⟨1000, 1024⟩, some "nX", PodPhase.Bound⟩
    ⟨"nX", "z1", ⟨4000, 4096⟩, NodePhase.Ready⟩ rfl (by decide)

end Karpenter
